import Mathlib

/-!
Verification of `src/dowel/csv_output.py` (`CsvOutput`).

The file on disk is modelled at the granularity the `csv` module works at:
a list of CSV records (lines), each a list of string fields.  This is
faithful because the RFC-4180 encoding used by `csv.writer`/`csv.reader`
round-trips every list of fields (a single empty field is written quoted,
so no written data line ever reads back as a blank line).

Python values are modelled by their string rendering (the `csv` module
stringifies every cell, and `None` is written as the empty string).  The
Python `dict` `datadict` is an association list in insertion order with
`List.lookup` as `dict.__getitem__`; a Python `set` is an insertion-ordered
duplicate-free list, which fixes one admissible iteration order (the claims
under study only ever compare key sets, never orders).
-/

namespace CsvOutput

/-- The primitive dict of a `TabularInput` (`data.as_primitive_dict`):
an association list from column name to string-rendered value. -/
abbrev Row := List (String × String)

/-- The keys of a row, in dict order (`datadict.keys()`). -/
def rowKeys (r : Row) : List String := r.map Prod.fst

/-- The loop `for key in ks: if key not in fns: fns.add(key)` on the Python
set `self._fieldnames`, modelled on an insertion-ordered dup-free list. -/
def addKeys (fns : List String) : List String → List String
  | [] => fns
  | k :: ks => addKeys (if k ∈ fns then fns else fns ++ [k]) ks

/-- `csv.DictWriter._dict_to_list`: one CSV line for `row`, in fieldname
order, with `restval = ''` substituted for keys missing from the dict
(`extrasaction='ignore'` drops keys outside `fns`, as `map` does here). -/
def rowLine (fns : List String) (row : Row) : List String :=
  fns.map (fun k => ((List.lookup k row).getD ""))

/-- The padding loop `for key in fns: if key not in datadict:
datadict[key] = ''`, which appends the missing keys in fieldname order. -/
def padRow (fns : List String) (row : Row) : Row :=
  row ++ (fns.filter (fun k => (List.lookup k row).isNone)).map (fun k => (k, ""))

/-- The mutable state of one `CsvOutput` writer: whether `self._writer` has
been created, `self._fieldnames`, the parsed content of `self._log_file`
(header line first), and a ghost counter of `rewriteCSV` invocations (the
"rewrite-count probe" of the spec's testable properties). -/
structure CsvState where
  writerInit : Bool
  fieldnames : List String
  file : List (List String)
  rewrites : Nat
deriving Repr, DecidableEq

/-- The writer's state right after `__init__` (file opened with `mode='w+'`,
hence empty). -/
def s0 : CsvState := ⟨false, [], [], 0⟩

/-- `CsvOutput.rewriteCSV(self, fieldnames)`: read all data rows back
(`csv.DictReader` zips the header line with each data line), extend
`self._fieldnames` with the unseen keys, truncate, re-emit the header and
every stored row padded with `''` for the added columns. -/
def rewriteCSV (s : CsvState) (ks : List String) : CsvState :=
  let header := s.file.headD []
  let csvdata := s.file.tail.map (fun line => header.zip line)
  let fns := addKeys s.fieldnames ks
  { s with fieldnames := fns
         , file := fns :: csvdata.map (fun r => rowLine fns (padRow fns r))
         , rewrites := s.rewrites + 1 }

/-- The `if not self._writer:` block of `record`: on the first effective
call, set `self._fieldnames = set(datadict.keys())` and write the header. -/
def initState (s : CsvState) (row : Row) : CsvState :=
  if s.writerInit = false then
    { s with writerInit := true
           , fieldnames := addKeys [] (rowKeys row)
           , file := s.file ++ [addKeys [] (rowKeys row)] }
  else s

/-- The `if not self._fieldnames.issuperset(datadict.keys()):` block of
`record`: rewrite the file when the row introduces unseen keys. -/
def growState (s : CsvState) (row : Row) : CsvState :=
  if ∀ k ∈ rowKeys row, k ∈ s.fieldnames then s else rewriteCSV s (rowKeys row)

/-- The `isinstance(data, TabularInput)` body of `CsvOutput.record`: the
empty-dict-before-header early return, header initialization, rewrite
check, padding of `datadict`, `writerow`, and finally `data.mark(k)` for
every key of the (padded) `datadict` — returned as the second component. -/
def recordT (s : CsvState) (row : Row) : CsvState × List String :=
  if row = [] ∧ s.writerInit = false then (s, [])
  else
    let s2 := growState (initState s row) row
    ({ s2 with file := s2.file ++ [rowLine s2.fieldnames (padRow s2.fieldnames row)] },
     rowKeys (padRow s2.fieldnames row))

/-- The argument of `CsvOutput.record`: either a `TabularInput` (abstracted
to its primitive dict) or a value of any other type. -/
inductive RecordInput where
  | tabular (row : Row)
  | other
deriving Repr, DecidableEq

/-- `CsvOutput.record(self, data, prefix='')`.  A non-`TabularInput`
argument raises `ValueError('Unacceptable type.')` (the writer's
unsupported-record-type error) before anything is touched; the error is the
`Except.error` branch.  The second component of a successful result is the
list of keys passed to `data.mark`. -/
def record (s : CsvState) (data : RecordInput) (pfx : String) :
    Except String (CsvState × List String) :=
  match data with
  | .tabular row => .ok (recordT s row)
  | .other => .error "Unacceptable type."

/-- The writer state after a `record` call, under Python exception
semantics: a raise before any mutation leaves the state unchanged. -/
def runRecord (s : CsvState) (data : RecordInput) (pfx : String) : CsvState :=
  match record s data pfx with
  | .ok p => p.1
  | .error _ => s

/-- A sequence of successful `record` calls on one writer. -/
def runSeq (s : CsvState) : List Row → CsvState
  | [] => s
  | r :: rest => runSeq (recordT s r).1 rest

/-- The union of the key sets of a list of rows. -/
def unionKeys : List Row → Finset String
  | [] => ∅
  | r :: rest => (rowKeys r).toFinset ∪ unionKeys rest

/-- The rows a sequence of calls actually writes to the file, accumulated
onto `eff`: every row except empty rows arriving before the header exists. -/
def effAcc (eff : List Row) : List Row → List Row
  | [] => eff
  | r :: rest => effAcc (if eff = [] ∧ r = [] then eff else eff ++ [r]) rest

/-- The on-disk cell of data row `i` (0-based) at column `k`, obtained the
way `csv.DictReader` would: zip the header line with the data line. -/
def cellAt (s : CsvState) (i : Nat) (k : String) : Option String :=
  List.lookup k ((s.file.headD []).zip (s.file.tail.getD i []))

/-! ### Association-list and key-set lemmas -/

theorem lookup_map_pair (g : String → String) (k : String) (fns : List String) :
    List.lookup k (fns.map (fun a => (a, g a))) = if k ∈ fns then some (g k) else none := by
  induction fns with
  | nil => simp
  | cons a t ih =>
      by_cases h : k = a
      · subst h; simp [List.lookup]
      · simp [List.lookup, h, ih, beq_false_of_ne h]

theorem zip_rowLine (fns : List String) (row : Row) :
    fns.zip (rowLine fns row) = fns.map (fun a => (a, (List.lookup a row).getD "")) := by
  unfold rowLine
  induction fns with
  | nil => rfl
  | cons a t ih =>
      simp only [List.map_cons, List.zip_cons_cons]
      rw [ih]

theorem lookup_append_cases (k : String) (l1 l2 : Row) :
    List.lookup k (l1 ++ l2) =
      match List.lookup k l1 with
      | some v => some v
      | none => List.lookup k l2 := by
  induction l1 with
  | nil => simp [List.lookup]
  | cons a t ih =>
      rcases a with ⟨a1, a2⟩
      by_cases h : k = a1
      · subst h; simp [List.lookup]
      · simp [List.lookup, beq_false_of_ne h, ih]

theorem lookup_eq_none_iff (k : String) (r : Row) :
    List.lookup k r = none ↔ k ∉ rowKeys r := by
  induction r with
  | nil => simp [List.lookup, rowKeys]
  | cons a t ih =>
      rcases a with ⟨a1, a2⟩
      by_cases h : k = a1
      · subst h; simp [List.lookup, rowKeys]
      · simp [List.lookup, beq_false_of_ne h, ih, rowKeys, h]

theorem lookup_padRow (fns : List String) (row : Row) (k : String) (hk : k ∈ fns) :
    List.lookup k (padRow fns row) = some ((List.lookup k row).getD "") := by
  unfold padRow
  rw [lookup_append_cases]
  cases hrow : List.lookup k row with
  | some v => simp
  | none =>
      have hmem : k ∈ fns.filter (fun k => (List.lookup k row).isNone) := by
        simp [List.mem_filter, hk, hrow]
      simp only [Option.getD_none]
      rw [lookup_map_pair (fun _ => "") k]
      simp [hmem]

theorem rowLine_padRow (fns : List String) (row : Row) :
    rowLine fns (padRow fns row) = rowLine fns row := by
  unfold rowLine
  apply List.map_congr_left
  intro k hk
  rw [lookup_padRow fns row k hk]
  simp

theorem rowLine_length (fns : List String) (row : Row) :
    (rowLine fns row).length = fns.length := by
  simp [rowLine]

theorem rowLine_roundtrip (fns fns2 : List String) (row : Row)
    (hsub : ∀ k ∈ rowKeys row, k ∈ fns) :
    rowLine fns2 (padRow fns2 (fns.zip (rowLine fns row))) = rowLine fns2 row := by
  rw [rowLine_padRow, zip_rowLine]
  unfold rowLine
  apply List.map_congr_left
  intro k _
  rw [lookup_map_pair]
  by_cases h : k ∈ fns
  · simp [h]
  · have : k ∉ rowKeys row := fun hc => h (hsub k hc)
    rw [(lookup_eq_none_iff k row).mpr this]
    simp [h]

theorem addKeys_nodup (ks : List String) :
    ∀ fns : List String, fns.Nodup → (addKeys fns ks).Nodup := by
  induction ks with
  | nil => intro fns h; exact h
  | cons k ks ih =>
      intro fns h
      unfold addKeys
      by_cases hk : k ∈ fns
      · simpa [hk] using ih fns h
      · have : (fns ++ [k]).Nodup := by
          simp [List.nodup_append, h, hk]
        simpa [hk] using ih (fns ++ [k]) this

theorem addKeys_toFinset (ks : List String) :
    ∀ fns : List String, (addKeys fns ks).toFinset = fns.toFinset ∪ ks.toFinset := by
  induction ks with
  | nil => intro fns; simp [addKeys]
  | cons k ks ih =>
      intro fns
      unfold addKeys
      by_cases hk : k ∈ fns
      · rw [if_pos hk, ih fns, List.toFinset_cons, Finset.union_insert,
          Finset.insert_eq_self.mpr (Finset.mem_union_left _ (List.mem_toFinset.mpr hk))]
      · rw [if_neg hk, ih (fns ++ [k]), List.toFinset_append, Finset.union_assoc]
        congr 1
        simp [Finset.insert_eq]

theorem mem_addKeys_right (fns ks : List String) (k : String) (hk : k ∈ ks) :
    k ∈ addKeys fns ks := by
  have : k ∈ (addKeys fns ks).toFinset := by
    rw [addKeys_toFinset]
    simp [hk]
  simpa using this

theorem mem_addKeys_left (fns ks : List String) (k : String) (hk : k ∈ fns) :
    k ∈ addKeys fns ks := by
  have : k ∈ (addKeys fns ks).toFinset := by
    rw [addKeys_toFinset]
    simp [hk]
  simpa using this

theorem unionKeys_append (xs ys : List Row) :
    unionKeys (xs ++ ys) = unionKeys xs ∪ unionKeys ys := by
  induction xs with
  | nil => simp [unionKeys]
  | cons r rest ih => simp [unionKeys, ih, Finset.union_assoc]

theorem mem_unionKeys (eff : List Row) (r : Row) (k : String)
    (hr : r ∈ eff) (hk : k ∈ rowKeys r) : k ∈ unionKeys eff := by
  induction eff with
  | nil => cases hr
  | cons a t ih =>
      rcases List.mem_cons.mp hr with h | h
      · subst h; simp [unionKeys, Finset.mem_union, List.mem_toFinset, hk]
      · simp [unionKeys, Finset.mem_union, ih h]

theorem effAcc_append (eff xs ys : List Row) :
    effAcc eff (xs ++ ys) = effAcc (effAcc eff xs) ys := by
  induction xs generalizing eff with
  | nil => simp [effAcc]
  | cons r rest ih => simp [effAcc, ih]

theorem effAcc_singleton (eff : List Row) (r : Row) :
    effAcc eff [r] = if eff = [] ∧ r = [] then eff else eff ++ [r] := rfl

theorem unionKeys_effAcc (rows : List Row) :
    ∀ eff : List Row, unionKeys (effAcc eff rows) = unionKeys eff ∪ unionKeys rows := by
  induction rows with
  | nil => intro eff; simp [effAcc, unionKeys]
  | cons r rest ih =>
      intro eff
      unfold effAcc
      by_cases h : eff = [] ∧ r = []
      · rw [if_pos h, ih eff, h.2]
        simp [unionKeys, rowKeys]
      · rw [if_neg h, ih (eff ++ [r]), unionKeys_append]
        simp [unionKeys, Finset.union_assoc]

/-! ### The reachable-state invariant -/

/-- The invariant tying a writer state to the list `eff` of rows it has
written: the fieldnames are duplicate-free and are exactly the union of the
keys written so far, the writer exists iff something was written, and the
file is the header line followed by one normalized line per written row. -/
structure Good (s : CsvState) (eff : List Row) : Prop where
  nodupF : s.fieldnames.Nodup
  fnsEq : s.fieldnames.toFinset = unionKeys eff
  initEq : (s.writerInit = true) ↔ eff ≠ []
  fileEq : s.file = if eff = [] then [] else s.fieldnames :: eff.map (rowLine s.fieldnames)

theorem good_s0 : Good s0 [] := by
  constructor <;> simp [s0, unionKeys]

theorem Good.keysSub {s : CsvState} {eff : List Row} (h : Good s eff)
    {r : Row} (hr : r ∈ eff) : ∀ k ∈ rowKeys r, k ∈ s.fieldnames := by
  intro k hk
  have : k ∈ s.fieldnames.toFinset := by
    rw [h.fnsEq]
    exact mem_unionKeys eff r k hr hk
  simpa using this

theorem headD_eq_fieldnames {s : CsvState} {eff : List Row} (h : Good s eff) :
    s.file.headD [] = s.fieldnames := by
  by_cases he : eff = []
  · have hfile : s.file = [] := by rw [h.fileEq, if_pos he]
    have : s.fieldnames.toFinset = ∅ := by rw [h.fnsEq, he]; rfl
    have hfns : s.fieldnames = [] := by
      cases hf : s.fieldnames with
      | nil => rfl
      | cons a t =>
          exfalso
          have : a ∈ s.fieldnames.toFinset := by simp [hf]
          rw [‹s.fieldnames.toFinset = ∅›] at this
          simp at this
    rw [hfile, hfns]
    rfl
  · rw [h.fileEq, if_neg he]
    rfl

theorem recordT_good (s : CsvState) (eff : List Row) (r : Row) (h : Good s eff) :
    Good (recordT s r).1 (if eff = [] ∧ r = [] then eff else eff ++ [r]) := by
  by_cases hcase : eff = [] ∧ r = []
  · -- empty row before the header exists: `record` returns immediately
    have hw : s.writerInit = false := by
      cases hb : s.writerInit
      · rfl
      · exact absurd (h.initEq.mp hb) (by simp [hcase.1])
    rw [if_pos hcase]
    unfold recordT
    rw [if_pos ⟨hcase.2, hw⟩]
    exact h
  · rw [if_neg hcase]
    by_cases he : eff = []
    · -- first effective call: the row is nonempty, header gets written
      have hr : r ≠ [] := fun hre => hcase ⟨he, hre⟩
      have hw : s.writerInit = false := by
        cases hb : s.writerInit
        · rfl
        · exact absurd (h.initEq.mp hb) (by simp [he])
      have hfile : s.file = [] := by rw [h.fileEq, if_pos he]
      unfold recordT
      rw [if_neg (by intro hc; exact hr hc.1)]
      unfold initState
      rw [if_pos hw]
      unfold growState
      rw [if_pos (fun k hk => mem_addKeys_right [] (rowKeys r) k hk)]
      subst he
      refine ⟨?_, ?_, ?_, ?_⟩
      · exact addKeys_nodup (rowKeys r) [] List.nodup_nil
      · simp [addKeys_toFinset, unionKeys]
      · simp
      · simp [hfile, rowLine_padRow]
    · -- the header exists already
      have hw : s.writerInit = true := h.initEq.mpr he
      have hfile : s.file = s.fieldnames :: eff.map (rowLine s.fieldnames) := by
        rw [h.fileEq, if_neg he]
      unfold recordT
      rw [if_neg (by intro hc; rw [hw] at hc; simp at hc)]
      unfold initState
      rw [if_neg (by rw [hw]; simp)]
      unfold growState
      by_cases hsup : ∀ k ∈ rowKeys r, k ∈ s.fieldnames
      · -- fast path: keys are a subset, append one line
        rw [if_pos hsup]
        refine ⟨h.nodupF, ?_, ?_, ?_⟩
        · rw [unionKeys_append, ← h.fnsEq]
          have hsub : (unionKeys [r] : Finset String) ⊆ s.fieldnames.toFinset := by
            intro a ha
            simp only [unionKeys, Finset.union_empty, List.mem_toFinset] at ha
            exact List.mem_toFinset.mpr (hsup a ha)
          exact (Finset.union_eq_left.mpr hsub).symm
        · simp [hw]
        · simp only [hfile]
          rw [if_neg (by simp)]
          simp [rowLine_padRow, List.map_append]
      · -- schema growth: rewriteCSV runs first
        rw [if_neg hsup]
        unfold rewriteCSV
        have hhead : s.file.headD [] = s.fieldnames := headD_eq_fieldnames h
        have htail : s.file.tail = eff.map (rowLine s.fieldnames) := by
          rw [hfile]; rfl
        refine ⟨?_, ?_, ?_, ?_⟩
        · exact addKeys_nodup (rowKeys r) s.fieldnames h.nodupF
        · rw [addKeys_toFinset, unionKeys_append, h.fnsEq]
          simp [unionKeys]
        · simp [hw]
        · rw [if_neg (by simp)]
          simp only [hhead, htail, List.map_map, List.map_append, List.map_cons,
            List.map_nil, List.cons_append, List.nil_append]
          rw [rowLine_padRow]
          congr 1
          congr 1
          apply List.map_congr_left
          intro q hq
          simp only [Function.comp_apply]
          exact rowLine_roundtrip s.fieldnames (addKeys s.fieldnames (rowKeys r)) q
            (h.keysSub hq)

theorem runSeq_good (rows : List Row) :
    ∀ (s : CsvState) (eff : List Row), Good s eff →
      Good (runSeq s rows) (effAcc eff rows) := by
  induction rows with
  | nil => intro s eff h; exact h
  | cons r rest ih =>
      intro s eff h
      unfold runSeq effAcc
      exact ih _ _ (recordT_good s eff r h)

theorem runSeq_append (xs ys : List Row) :
    ∀ s : CsvState, runSeq s (xs ++ ys) = runSeq (runSeq s xs) ys := by
  induction xs with
  | nil => intro s; rfl
  | cons r rest ih =>
      intro s
      simp only [List.cons_append, runSeq]
      exact ih (recordT s r).1

/-! ### The warning sub-contract (`CsvOutput._warn`, `disable_warnings`) -/

/-- The warning-related fields of the writer: `self._warned_once` (a Python
set, modelled as an insertion-ordered dup-free list) and
`self._disable_warnings`. -/
structure WarnState where
  warnedOnce : List String
  disabled : Bool
deriving Repr, DecidableEq

/-- The warning state right after `__init__`. -/
def w0 : WarnState := ⟨[], false⟩

/-- An operation touching the warning state: a `_warn(msg)` call or a
`disable_warnings()` call. -/
inductive WarnOp where
  | warn (msg : String)
  | disable
deriving Repr, DecidableEq

/-- One step: `_warn` emits through `warnings.warn` only when not disabled
and the message is unseen, then always adds the message to
`self._warned_once`; `disable_warnings` sets the flag.  The second
component is the list of messages emitted by the step. -/
def warnStep (w : WarnState) : WarnOp → WarnState × List String
  | .warn msg =>
      (⟨if msg ∈ w.warnedOnce then w.warnedOnce else w.warnedOnce ++ [msg], w.disabled⟩,
       if w.disabled = false ∧ msg ∉ w.warnedOnce then [msg] else [])
  | .disable => (⟨w.warnedOnce, true⟩, [])

/-- A sequence of warning operations over one writer's lifetime, returning
the final warning state and all messages emitted, in order. -/
def runWarn (w : WarnState) : List WarnOp → WarnState × List String
  | [] => (w, [])
  | op :: ops =>
      let p := warnStep w op
      let q := runWarn p.1 ops
      (q.1, p.2 ++ q.2)

theorem warnStep_warn_emit (w : WarnState) (msg : String) :
    (warnStep w (WarnOp.warn msg)).2 =
      if w.disabled = false ∧ msg ∉ w.warnedOnce then [msg] else [] := rfl

theorem warnStep_warn_state (w : WarnState) (msg : String) :
    (warnStep w (WarnOp.warn msg)).1 =
      ⟨if msg ∈ w.warnedOnce then w.warnedOnce else w.warnedOnce ++ [msg], w.disabled⟩ := rfl

theorem warnStep_warnedOnce_mono (w : WarnState) (op : WarnOp) (m : String)
    (hm : m ∈ w.warnedOnce) : m ∈ (warnStep w op).1.warnedOnce := by
  cases op with
  | warn msg =>
      rw [warnStep_warn_state]
      by_cases h : msg ∈ w.warnedOnce <;> simp [h, hm]
  | disable => exact hm

theorem warnStep_disabled_mono (w : WarnState) (op : WarnOp)
    (hw : w.disabled = true) : (warnStep w op).1.disabled = true := by
  cases op with
  | warn msg => rw [warnStep_warn_state]; exact hw
  | disable => rfl

theorem runWarn_append (xs ys : List WarnOp) :
    ∀ w : WarnState,
      runWarn w (xs ++ ys) =
        ((runWarn (runWarn w xs).1 ys).1,
          (runWarn w xs).2 ++ (runWarn (runWarn w xs).1 ys).2) := by
  induction xs with
  | nil => intro w; simp [runWarn]
  | cons op ops ih =>
      intro w
      simp only [List.cons_append, runWarn, List.append_eq]
      rw [ih (warnStep w op).1]
      simp [List.append_assoc]

theorem emitted_not_warned (ops : List WarnOp) :
    ∀ (w : WarnState) (m : String), m ∈ (runWarn w ops).2 → m ∉ w.warnedOnce := by
  induction ops with
  | nil => intro w m hm; simp [runWarn] at hm
  | cons op rest ih =>
      intro w m hm
      simp only [runWarn, List.mem_append] at hm
      rcases hm with hm | hm
      · cases op with
        | warn msg =>
            rw [warnStep_warn_emit] at hm
            by_cases h : w.disabled = false ∧ msg ∉ w.warnedOnce
            · rw [if_pos h, List.mem_singleton] at hm
              subst hm
              exact h.2
            · rw [if_neg h] at hm
              simp at hm
        | disable => simp [warnStep] at hm
      · intro hc
        exact ih (warnStep w op).1 m hm (warnStep_warnedOnce_mono w op m hc)

theorem emitted_in_warnedOnce_step (w : WarnState) (op : WarnOp) (m : String)
    (hm : m ∈ (warnStep w op).2) : m ∈ (warnStep w op).1.warnedOnce := by
  cases op with
  | warn msg =>
      rw [warnStep_warn_emit] at hm
      rw [warnStep_warn_state]
      by_cases h : w.disabled = false ∧ msg ∉ w.warnedOnce
      · rw [if_pos h, List.mem_singleton] at hm
        subst hm
        simp [h.2]
      · rw [if_neg h] at hm
        simp at hm
  | disable => simp [warnStep] at hm

theorem emitted_nodup (ops : List WarnOp) :
    ∀ w : WarnState, (runWarn w ops).2.Nodup := by
  induction ops with
  | nil => intro w; simp [runWarn]
  | cons op rest ih =>
      intro w
      simp only [runWarn]
      rw [List.nodup_append]
      refine ⟨?_, ih _, ?_⟩
      · cases op with
        | warn msg => rw [warnStep_warn_emit]; split <;> simp
        | disable => simp [warnStep]
      · intro m hm hm2
        exact emitted_not_warned rest (warnStep w op).1 m hm2
          (emitted_in_warnedOnce_step w op m hm)

theorem disabled_no_emission (ops : List WarnOp) :
    ∀ w : WarnState, w.disabled = true → (runWarn w ops).2 = [] := by
  induction ops with
  | nil => intro w _; rfl
  | cons op rest ih =>
      intro w hw
      simp only [runWarn]
      have h2 := warnStep_disabled_mono w op hw
      cases op with
      | warn msg =>
          rw [warnStep_warn_emit, if_neg (by rw [hw]; simp), ih _ h2]
          rfl
      | disable =>
          rw [ih _ h2]
          rfl

/-! ### Helper lemmas for the claim theorems -/

theorem keys_sub_growState (s : CsvState) (r : Row) :
    ∀ k ∈ rowKeys r, k ∈ (growState s r).fieldnames := by
  intro k hk
  unfold growState
  by_cases h : ∀ k ∈ rowKeys r, k ∈ s.fieldnames
  · rw [if_pos h]
    exact h k hk
  · rw [if_neg h]
    exact mem_addKeys_right s.fieldnames (rowKeys r) k hk

theorem rowKeys_padRow (fns : List String) (r : Row) :
    rowKeys (padRow fns r) =
      rowKeys r ++ fns.filter (fun k => (List.lookup k r).isNone) := by
  unfold padRow rowKeys
  rw [List.map_append, List.map_map]
  congr 1
  rw [show (Prod.fst ∘ fun k : String => (k, "")) = (id : String → String) from rfl,
    List.map_id]

theorem rowKeys_padRow_toFinset (fns : List String) (r : Row)
    (hsub : ∀ k ∈ rowKeys r, k ∈ fns) :
    (rowKeys (padRow fns r)).toFinset = fns.toFinset := by
  rw [rowKeys_padRow]
  ext a
  simp only [List.toFinset_append, Finset.mem_union, List.mem_toFinset, List.mem_filter]
  constructor
  · rintro (h | h)
    · exact hsub a h
    · exact h.1
  · intro h
    by_cases ha : a ∈ rowKeys r
    · exact Or.inl ha
    · exact Or.inr ⟨h, by rw [(lookup_eq_none_iff a r).mpr ha]; rfl⟩

/-- The state after recording the single row `{a: 1}` on a fresh writer. -/
def wS1 : CsvState := (recordT s0 [("a", "1")]).1

/-! ### Claim theorems -/

/-- C1: Header superset invariant.  For every sequence of `record` calls on
one writer, after each call returns the header line on disk is, as a set,
exactly the union of the keys of all rows presented so far — no extra and
no omitted columns. -/
theorem header_is_union_of_keys (rows : List Row) :
    ((runSeq s0 rows).file.headD []).toFinset = unionKeys rows := by
  have hg := runSeq_good rows s0 [] good_s0
  rw [headD_eq_fieldnames hg, hg.fnsEq, unionKeys_effAcc rows []]
  simp [unionKeys]

/-- C2: No data loss on rewrite.  For every previously written row `R` and
every later `record` call whose row introduces at least one new column,
after the triggered rewrite the file still has one line for `R`, every
column of `R` still reads its originally recorded value, and every current
column absent from `R` reads the empty string. -/
theorem no_data_loss_on_rewrite (rows : List Row) (r R : Row) (i : Nat)
    (hR : (effAcc [] rows).getD i [] = R) (hi : i < (effAcc [] rows).length)
    (hnew : ∃ k, k ∈ rowKeys r ∧ k ∉ (runSeq s0 rows).fieldnames) :
    (runSeq s0 (rows ++ [r])).file.tail.length = (effAcc [] rows).length + 1 ∧
    (∀ k, k ∈ rowKeys R → cellAt (runSeq s0 (rows ++ [r])) i k = List.lookup k R) ∧
    (∀ k, k ∈ (runSeq s0 (rows ++ [r])).fieldnames → k ∉ rowKeys R →
      cellAt (runSeq s0 (rows ++ [r])) i k = some "") := by
  have hrne : r ≠ [] := by
    rcases hnew with ⟨k, hk, _⟩
    intro hc
    subst hc
    simp [rowKeys] at hk
  have heff : effAcc [] (rows ++ [r]) = effAcc [] rows ++ [r] := by
    rw [effAcc_append [] rows [r], effAcc_singleton,
      if_neg (fun hc => hrne hc.2)]
  have hg := runSeq_good (rows ++ [r]) s0 [] good_s0
  rw [heff] at hg
  have hfile : (runSeq s0 (rows ++ [r])).file =
      (runSeq s0 (rows ++ [r])).fieldnames ::
        (effAcc [] rows ++ [r]).map (rowLine (runSeq s0 (rows ++ [r])).fieldnames) := by
    rw [hg.fileEq, if_neg (by simp)]
  have htail : (runSeq s0 (rows ++ [r])).file.tail =
      (effAcc [] rows ++ [r]).map (rowLine (runSeq s0 (rows ++ [r])).fieldnames) := by
    rw [hfile]
    rfl
  have hlen : (runSeq s0 (rows ++ [r])).file.tail.length = (effAcc [] rows).length + 1 := by
    rw [htail]
    simp
  have hR_mem : R ∈ effAcc [] rows := by
    rw [← hR, List.getD_eq_getElem (effAcc [] rows) [] hi]
    exact List.getElem_mem hi
  have hiline : (runSeq s0 (rows ++ [r])).file.tail.getD i [] =
      rowLine (runSeq s0 (rows ++ [r])).fieldnames R := by
    have hE : (effAcc [] rows)[i]? = some R := by
      rw [List.getElem?_eq_getElem hi]
      rw [← hR, List.getD_eq_getElem (effAcc [] rows) [] hi]
    rw [htail, List.getD_eq_getElem?_getD, List.getElem?_map,
      List.getElem?_append_left hi, hE]
    rfl
  have hcell : ∀ k, cellAt (runSeq s0 (rows ++ [r])) i k =
      if k ∈ (runSeq s0 (rows ++ [r])).fieldnames
      then some ((List.lookup k R).getD "") else none := by
    intro k
    unfold cellAt
    rw [headD_eq_fieldnames hg, hiline, zip_rowLine, lookup_map_pair]
  refine ⟨hlen, ?_, ?_⟩
  · intro k hk
    have hkf : k ∈ (runSeq s0 (rows ++ [r])).fieldnames :=
      hg.keysSub (List.mem_append_left [r] hR_mem) k hk
    rw [hcell k, if_pos hkf]
    cases hl : List.lookup k R with
    | none => exact absurd ((lookup_eq_none_iff k R).mp hl) (by simp [hk])
    | some v => rfl
  · intro k hkf hknR
    rw [hcell k, if_pos hkf, (lookup_eq_none_iff k R).mpr hknR]
    rfl

/-- C3: Row completeness invariant.  After any sequence of `record` calls,
every data row on disk has exactly one cell per column of the current
header line (every column has a value for that row, possibly empty). -/
theorem row_completeness (rows : List Row) (line : List String)
    (hline : line ∈ (runSeq s0 rows).file.tail) :
    line.length = ((runSeq s0 rows).file.headD []).length := by
  have hg := runSeq_good rows s0 [] good_s0
  rw [headD_eq_fieldnames hg]
  by_cases he : effAcc [] rows = []
  · rw [hg.fileEq, if_pos he] at hline
    simp at hline
  · rw [hg.fileEq, if_neg he] at hline
    simp only [List.tail_cons] at hline
    obtain ⟨q, _, rfl⟩ := List.mem_map.mp hline
    exact rowLine_length _ _

/-- C4: Fast path never rewrites.  When the row's keys are a subset of the
current ColumnSet, no rewrite happens: the rewrite counter and the
fieldnames are unchanged, the file grows by exactly one appended line with
all previously written lines untouched, and every column missing from the
row is substituted with the empty string. -/
theorem fast_path_appends_only (s : CsvState) (r : Row)
    (h1 : s.writerInit = true)
    (h2 : ∀ k ∈ rowKeys r, k ∈ s.fieldnames) :
    (recordT s r).1.rewrites = s.rewrites ∧
    (recordT s r).1.fieldnames = s.fieldnames ∧
    (recordT s r).1.file = s.file ++ [rowLine s.fieldnames (padRow s.fieldnames r)] ∧
    (∀ k, k ∈ s.fieldnames → k ∉ rowKeys r →
      List.lookup k (padRow s.fieldnames r) = some "") := by
  have hni : initState s r = s := by
    unfold initState
    rw [if_neg (by rw [h1]; simp)]
  have hng : growState s r = s := by
    unfold growState
    rw [if_pos h2]
  unfold recordT
  rw [if_neg (by intro hc; rw [h1] at hc; simp at hc)]
  rw [hni, hng]
  refine ⟨rfl, rfl, rfl, ?_⟩
  intro k hk hnk
  rw [lookup_padRow s.fieldnames r k hk, (lookup_eq_none_iff k r).mpr hnk]
  rfl

/-- C4 witness: recording `{a: 2}` after `{a: 1}` appends one line and does
not rewrite. -/
theorem fast_path_appends_only_witness :
    (recordT wS1 [("a", "2")]).1.rewrites = wS1.rewrites ∧
    (recordT wS1 [("a", "2")]).1.fieldnames = wS1.fieldnames ∧
    (recordT wS1 [("a", "2")]).1.file =
      wS1.file ++ [rowLine wS1.fieldnames (padRow wS1.fieldnames [("a", "2")])] ∧
    (∀ k, k ∈ wS1.fieldnames → k ∉ rowKeys [("a", "2")] →
      List.lookup k (padRow wS1.fieldnames [("a", "2")]) = some "") :=
  fast_path_appends_only wS1 [("a", "2")] (by decide) (by decide)

/-- C5: Type rejection with atomicity.  A non-`TabularInput` argument makes
`record` raise the writer's unsupported-record-type error
(`ValueError('Unacceptable type.')`), and the writer state — file contents,
ColumnSet, everything — is exactly as before the call. -/
theorem type_rejection_atomic (s : CsvState) (p : String) :
    record s RecordInput.other p = Except.error "Unacceptable type." ∧
    runRecord s RecordInput.other p = s :=
  ⟨rfl, rfl⟩

/-- C2 witness: the row `{a: 1}`, after `{a: 2, b: 5}` triggers a rewrite,
is still on disk with `a = 1` and `b = ""`. -/
theorem no_data_loss_on_rewrite_witness :
    (runSeq s0 ([[("a", "1")]] ++ [[("a", "2"), ("b", "5")]])).file.tail.length =
      (effAcc [] [[("a", "1")]]).length + 1 ∧
    (∀ k, k ∈ rowKeys [(("a" : String), ("1" : String))] →
      cellAt (runSeq s0 ([[("a", "1")]] ++ [[("a", "2"), ("b", "5")]])) 0 k =
        List.lookup k [(("a" : String), ("1" : String))]) ∧
    (∀ k, k ∈ (runSeq s0 ([[("a", "1")]] ++ [[("a", "2"), ("b", "5")]])).fieldnames →
      k ∉ rowKeys [(("a" : String), ("1" : String))] →
      cellAt (runSeq s0 ([[("a", "1")]] ++ [[("a", "2"), ("b", "5")]])) 0 k = some "") :=
  no_data_loss_on_rewrite [[("a", "1")]] [("a", "2"), ("b", "5")] [("a", "1")] 0
    (by decide) (by decide) ⟨"b", by decide⟩

/-- C3 witness: on a file with header `a` and data row `1`, that row has as
many cells as the header. -/
theorem row_completeness_witness :
    (["1"] : List String).length = ((runSeq s0 [[("a", "1")]]).file.headD []).length :=
  row_completeness [[("a", "1")]] ["1"] (by decide)

/-- The writer state after recording `{a: 1, b: 2}` on a fresh writer; used
to exhibit the marking behaviour of the next call. -/
def cexS : CsvState := (recordT s0 [("a", "1"), ("b", "2")]).1

/-- C6 counterexample: after recording `{a: 1, b: 2}` and then `{a: 3}`,
the call for `{a: 3}` marks the key `"b"` on its record object even though
`"b"` is not a key of that row, so the marked keys are not exactly the keys
consumed from the caller's row. -/
theorem marks_include_unconsumed_key :
    "b" ∈ (recordT cexS [("a", "3")]).2 ∧
    "b" ∉ rowKeys [(("a" : String), ("3" : String))] := by
  decide

/-- C6 amended: after every `record` call that writes (any call except the
empty-row-before-header no-op), the keys marked on the record object are,
as a set, exactly the writer's ColumnSet after the call — the row's own
keys together with every previously seen column, the padded blank columns
included — rather than only the keys consumed from the caller's row. -/
theorem marks_are_current_columnset (s : CsvState) (r : Row)
    (h : s.writerInit = true ∨ r ≠ []) :
    ((recordT s r).2).toFinset = ((recordT s r).1.fieldnames).toFinset := by
  unfold recordT
  rw [if_neg ?hne]
  case hne =>
    rintro ⟨hc1, hc2⟩
    rcases h with h1 | h2
    · rw [h1] at hc2
      exact Bool.noConfusion hc2
    · exact h2 hc1
  exact rowKeys_padRow_toFinset _ _ (keys_sub_growState (initState s r) r)

/-- C6 amended witness: recording `{a: 3}` after `{a: 1, b: 2}` marks
exactly the columns of the writer, as a set. -/
theorem marks_are_current_columnset_witness :
    ((recordT cexS [("a", "3")]).2).toFinset =
      ((recordT cexS [("a", "3")]).1.fieldnames).toFinset :=
  marks_are_current_columnset cexS [("a", "3")] (Or.inl (by decide))

/-- C7: Empty-row no-op before header.  A `record` call whose row has no
keys, made while the writer is uninitialized, returns without writing:
state unchanged (file still empty, ColumnSet still unset), nothing marked. -/
theorem empty_row_noop_before_header (s : CsvState) (r : Row)
    (h1 : rowKeys r = []) (h2 : s.writerInit = false) :
    recordT s r = (s, []) := by
  have hr : r = [] := by
    cases r with
    | nil => rfl
    | cons a t => simp [rowKeys] at h1
  subst hr
  unfold recordT
  rw [if_pos ⟨rfl, h2⟩]

/-- C7 witness: an empty row on a fresh writer is a no-op. -/
theorem empty_row_noop_before_header_witness :
    recordT s0 [] = (s0, []) :=
  empty_row_noop_before_header s0 [] rfl rfl

/-- C8: Warning at-most-once and suppression.  Over any sequence of `_warn`
and `disable_warnings` calls on one writer, each distinct message text is
emitted at most once, and no message is emitted by the calls that follow a
`disable_warnings`.  (The warning state is disjoint from the CSV state, so
warning handling cannot change file content.) -/
theorem warn_once_and_suppression (ops : List WarnOp) :
    (runWarn w0 ops).2.Nodup ∧
    (∀ pre post, ops = pre ++ (WarnOp.disable :: post) →
      (runWarn w0 ops).2 = (runWarn w0 (pre ++ [WarnOp.disable])).2) := by
  constructor
  · exact emitted_nodup ops w0
  · intro pre post hsplit
    have hops : ops = (pre ++ [WarnOp.disable]) ++ post := by
      rw [hsplit]
      simp
    have hdis : (runWarn w0 (pre ++ [WarnOp.disable])).1.disabled = true := by
      rw [runWarn_append pre [WarnOp.disable] w0]
      rfl
    rw [hops, runWarn_append (pre ++ [WarnOp.disable]) post w0]
    simp only []
    rw [disabled_no_emission post _ hdis]
    simp

/-- C8 witness: warning `"a"` twice, disabling, then warning `"b"` emits
`"a"` exactly once and nothing after the disable. -/
theorem warn_once_and_suppression_witness :
    (runWarn w0 [WarnOp.warn "a", WarnOp.warn "a", WarnOp.disable,
      WarnOp.warn "b"]).2.Nodup ∧
    (runWarn w0 [WarnOp.warn "a", WarnOp.warn "a", WarnOp.disable,
      WarnOp.warn "b"]).2 =
      (runWarn w0 ([WarnOp.warn "a", WarnOp.warn "a"] ++ [WarnOp.disable])).2 :=
  ⟨(warn_once_and_suppression _).1,
    (warn_once_and_suppression _).2 [WarnOp.warn "a", WarnOp.warn "a"]
      [WarnOp.warn "b"] rfl⟩

/-- C9: An empty row after the header exists is not a no-op: the writer
appends one data row whose every cell is the empty string, leaves the
ColumnSet unchanged, and marks every current column on the record object. -/
theorem empty_row_after_header_blank_line (s : CsvState) (r : Row)
    (h1 : rowKeys r = []) (h2 : s.writerInit = true) :
    recordT s r =
      ({ s with file := s.file ++ [s.fieldnames.map (fun _ => "")] }, s.fieldnames) := by
  have hr : r = [] := by
    cases r with
    | nil => rfl
    | cons a t => simp [rowKeys] at h1
  subst hr
  unfold recordT
  rw [if_neg (by rintro ⟨_, hc⟩; rw [h2] at hc; exact Bool.noConfusion hc)]
  have hni : initState s [] = s := by
    unfold initState
    rw [if_neg (by rw [h2]; simp)]
  have hng : growState s [] = s := by
    unfold growState
    rw [if_pos (by intro k hk; simp [rowKeys] at hk)]
  rw [hni, hng]
  have hline : rowLine s.fieldnames (padRow s.fieldnames []) =
      s.fieldnames.map (fun _ => "") := by
    rw [rowLine_padRow]
    unfold rowLine
    apply List.map_congr_left
    intro k _
    rfl
  have hkeys : rowKeys (padRow s.fieldnames []) = s.fieldnames := by
    rw [rowKeys_padRow]
    simp only [rowKeys, List.map_nil, List.nil_append]
    exact List.filter_eq_self.mpr (fun a _ => rfl)
  show ({ s with file := s.file ++ [rowLine s.fieldnames (padRow s.fieldnames [])] },
      rowKeys (padRow s.fieldnames [])) =
    ({ s with file := s.file ++ [s.fieldnames.map (fun _ => "")] }, s.fieldnames)
  rw [hline, hkeys]

/-- C9 witness: an empty row recorded after `{a: 1}` appends the blank line
`[""]` and marks the column `a`. -/
theorem empty_row_after_header_blank_line_witness :
    recordT wS1 [] =
      ({ wS1 with file := wS1.file ++ [wS1.fieldnames.map (fun _ => "")] },
        wS1.fieldnames) :=
  empty_row_after_header_blank_line wS1 [] rfl (by decide)

/-- C10: The prefix parameter of `record` is ignored: for any writer state
and any record input, two calls differing only in that parameter produce
the same result — same error or same new state and same marked keys. -/
theorem record_second_param_no_effect (s : CsvState) (d : RecordInput)
    (p1 p2 : String) :
    record s d p1 = record s d p2 ∧ runRecord s d p1 = runRecord s d p2 :=
  ⟨rfl, rfl⟩
